import Mathlib

/-!
Verification of `stable-error` (src/src/stable-error.ts)

A shallow embedding of the core of the `stable-error` TypeScript library:

* `normalizeMessage` — message normalization by ordered regex replacement passes,
* `filterMetadata`   — the metadata allow-list filter,
* `generateStableId` — canonical string construction + 32-bit rolling hash + hex rendering,
* `createStableError` — the error builder.

Strings are modelled as Lean `String`/`List Char`; JavaScript UTF-16 code units are
modelled by `Char.toNat` (exact for all code points in the Basic Multilingual Plane).
JavaScript metadata values (`unknown`) are abstracted as `Option String`:
`none` stands for `null`/`undefined`, and `some s` stands for any other value whose
`String(...)` rendering is `s`.  JavaScript objects are modelled as association lists
with pairwise-distinct keys (`NodupKeys`).  32-bit signed integer wrap-around
(`| 0` / `& hash` semantics) is modelled explicitly on `Int`.

Global regex replacement (`String.prototype.replace` with flag `g`) is modelled by
a left-to-right scanner with an explicit fuel argument equal to the input length:
each firing of a matcher consumes at least one character, so the fuel never runs
out and the scanner is total and kernel-computable.
-/

/-! ## Character classes (JavaScript regex semantics, via UTF-16 code units) -/

/-- Character class `\d` — an ASCII decimal digit. -/
def isDigitChar (c : Char) : Bool :=
  decide (48 ≤ c.toNat) && decide (c.toNat ≤ 57)

/-- Character class `[0-9a-f]` under the `i` flag — a hexadecimal digit, either case. -/
def isHexChar (c : Char) : Bool :=
  (decide (48 ≤ c.toNat) && decide (c.toNat ≤ 57)) ||
  (decide (97 ≤ c.toNat) && decide (c.toNat ≤ 102)) ||
  (decide (65 ≤ c.toNat) && decide (c.toNat ≤ 70))

/-- Character class `\w` — a JavaScript word character `[A-Za-z0-9_]`, used by `\b` boundaries. -/
def isWordChar (c : Char) : Bool :=
  (decide (48 ≤ c.toNat) && decide (c.toNat ≤ 57)) ||
  (decide (65 ≤ c.toNat) && decide (c.toNat ≤ 90)) ||
  (decide (97 ≤ c.toNat) && decide (c.toNat ≤ 122)) ||
  decide (c.toNat = 95)

/-- Character class `\s` — a JavaScript whitespace character (WhiteSpace + LineTerminator productions);
this is also the character class trimmed by `String.prototype.trim`. -/
def isWsChar (c : Char) : Bool :=
  (decide (9 ≤ c.toNat) && decide (c.toNat ≤ 13)) ||
  decide (c.toNat = 32) || decide (c.toNat = 160) || decide (c.toNat = 5760) ||
  (decide (8192 ≤ c.toNat) && decide (c.toNat ≤ 8202)) ||
  decide (c.toNat = 8232) || decide (c.toNat = 8233) || decide (c.toNat = 8239) ||
  decide (c.toNat = 8287) || decide (c.toNat = 12288) || decide (c.toNat = 65279)

/-- Model of `String.prototype.toLowerCase`, modelled for the ASCII range (non-ASCII
characters are left unchanged, which matches `toLowerCase` on all characters
occurring in this development). -/
def toLowerChar (c : Char) : Char :=
  if 65 ≤ c.toNat ∧ c.toNat ≤ 90 then Char.ofNat (c.toNat + 32) else c

/-! ## Regex matchers

Each matcher receives the character preceding the current position (`none` at the
start of the string — used only by `\b`) and the remaining input.  It returns
`none` when the regex does not match at this position, and `some k` when it
matches exactly `k + 1` characters. -/

/-- Consume exactly `k` characters satisfying `p` (the regex piece `p{k}`). -/
def takeCount (p : Char → Bool) : Nat → List Char → Option (List Char)
  | 0, l => some l
  | _ + 1, [] => none
  | k + 1, c :: rest => if p c then takeCount p k rest else none

/-- Consume one character equal to `ch`. -/
def expectChar (ch : Char) : List Char → Option (List Char)
  | [] => none
  | c :: rest => if c = ch then some rest else none

/-- Consume one character satisfying `p`. -/
def expectPred (p : Char → Bool) : List Char → Option (List Char)
  | [] => none
  | c :: rest => if p c then some rest else none

/-- A greedy optional group `(...)?`: use the match if the body matches, else
consume nothing.  (Nothing after the optional groups in the patterns below can
fail, so no backtracking into the group is ever needed.) -/
def tryOpt (f : List Char → Option (List Char)) (l : List Char) : List Char :=
  (f l).getD l

/-- Length of the maximal prefix of characters satisfying `p` (greedy `p+`/`p*`). -/
def runLen (p : Char → Bool) : List Char → Nat
  | [] => 0
  | c :: rest => if p c then runLen p rest + 1 else 0

/-- Does the previous character make a `\b` fail before a word character? -/
def prevIsWord : Option Char → Bool
  | none => false
  | some c => isWordChar c

/-- Does the next character make a `\b` fail after a word character? -/
def nextIsWord : List Char → Bool
  | [] => false
  | c :: _ => isWordChar c

/-- Matcher for `/[0-9a-f]{8}-[0-9a-f]{4}-[0-9a-f]{4}-[0-9a-f]{4}-[0-9a-f]{12}/gi`. -/
def matchUuid (_prev : Option Char) (l : List Char) : Option Nat :=
  (((((((((takeCount isHexChar 8 l).bind
    (expectChar '-')).bind (takeCount isHexChar 4)).bind
    (expectChar '-')).bind (takeCount isHexChar 4)).bind
    (expectChar '-')).bind (takeCount isHexChar 4)).bind
    (expectChar '-')).bind (takeCount isHexChar 12)).map
    (fun rest => l.length - rest.length - 1)

/-- Matcher for `/\d{4}-\d{2}-\d{2}T\d{2}:\d{2}:\d{2}(\.\d{3})?Z?/gi`.
The `i` flag makes `T` and `Z` match either case.  The optional fractional part
requires exactly three digits; the optional groups are greedy and nothing after
them can fail, so the match is deterministic. -/
def matchIso (_prev : Option Char) (l : List Char) : Option Nat :=
  ((((((((((takeCount isDigitChar 4 l).bind
    (expectChar '-')).bind (takeCount isDigitChar 2)).bind
    (expectChar '-')).bind (takeCount isDigitChar 2)).bind
    (expectPred (fun c => c = 't' ∨ c = 'T'))).bind (takeCount isDigitChar 2)).bind
    (expectChar ':')).bind (takeCount isDigitChar 2)).bind
    (expectChar ':')).bind (takeCount isDigitChar 2) |>.map
    (fun rest =>
      let rest1 := tryOpt (fun r => (expectChar '.' r).bind (takeCount isDigitChar 3)) rest
      let rest2 := tryOpt (expectPred (fun c => c = 'z' ∨ c = 'Z')) rest1
      l.length - rest2.length - 1)

/-- Matcher for `/\b\d{13}\b/g`: the first `\b` holds iff the previous character
is not a word character (the following character is a digit), `\d{13}` consumes
exactly thirteen digits, and the trailing `\b` holds iff the next character is
absent or not a word character. -/
def matchTs13 (prev : Option Char) (l : List Char) : Option Nat :=
  if prevIsWord prev then none
  else
    match takeCount isDigitChar 13 l with
    | none => none
    | some rest => if nextIsWord rest then none else some 12

/-- Matcher for `/\b\d+\b/g`.  The greedy `\d+` takes the maximal digit run; if
the trailing `\b` then fails, every backtrack also fails (the character after a
shorter digit prefix is a digit, hence a word character), so the regex matches
at a position iff the maximal run is nonempty and is followed by a non-word
character, with a non-word character before it. -/
def matchNum (prev : Option Char) (l : List Char) : Option Nat :=
  if prevIsWord prev then none
  else
    let k := runLen isDigitChar l
    if k = 0 then none
    else if nextIsWord (l.drop k) then none else some (k - 1)

/-- Matcher for `/\s+/g`: the maximal nonempty whitespace run. -/
def matchWs (_prev : Option Char) (l : List Char) : Option Nat :=
  let k := runLen isWsChar l
  if k = 0 then none else some (k - 1)

/-! ## The global-replace scanner -/

/-- One global replacement pass (`String.prototype.replace` with the `g` flag):
scan left to right; at each position try the matcher; on a match emit the
replacement and resume after the matched text, otherwise emit the character and
advance by one.  `prev` is the original character before the current position
(for `\b`).  `fuel` starts at the input length; every step consumes at least one
character, so the fuel never runs out. -/
def scanRep (M : Option Char → List Char → Option Nat) (repl : List Char) :
    Nat → Option Char → List Char → List Char
  | 0, _, l => l
  | _ + 1, _, [] => []
  | fuel + 1, prev, c :: rest =>
    match M prev (c :: rest) with
    | some k => repl ++ scanRep M repl fuel (some ((c :: rest).getD k c)) (rest.drop k)
    | none => c :: scanRep M repl fuel (some c) rest

/-- Run a replacement pass over a whole character list. -/
def runPass (M : Option Char → List Char → Option Nat) (repl : List Char)
    (l : List Char) : List Char :=
  scanRep M repl l.length none l

/-- Model of `String.prototype.trim`. -/
def trimChars (l : List Char) : List Char :=
  ((l.dropWhile isWsChar).reverse.dropWhile isWsChar).reverse

/-- The normalization pipeline of `normalizeMessage` on character lists:
lowercase + trim, then the four placeholder passes in source order, then
whitespace collapsing. -/
def normalizeChars (l : List Char) : List Char :=
  let t := trimChars (l.map toLowerChar)
  let a := runPass matchUuid "UUID".data t
  let b := runPass matchIso "TIMESTAMP".data a
  let c := runPass matchTs13 "TIMESTAMP_MS".data b
  let d := runPass matchNum "NUMBER".data c
  runPass matchWs " ".data d

/-- Embedding of `normalizeMessage` (src/src/stable-error.ts:34-51).  The `!message` guard
returns `""` for the empty string (the only falsy string); the `typeof` guard is
vacuous in the typed model. -/
def normalizeMessage (message : String) : String :=
  if message = "" then "" else ⟨normalizeChars message.data⟩

/-! ## Metadata -/

/-- An abstracted JavaScript value: `none` models `null`/`undefined`; `some s`
models any other value, recorded by its `String(...)` rendering `s`. -/
abbrev JSValue := Option String

/-- A JavaScript object used as a string-keyed mapping, in insertion order. -/
abbrev Metadata := List (String × JSValue)

/-- JavaScript objects cannot contain a key twice. -/
def NodupKeys (md : Metadata) : Prop := (md.map Prod.fst).Nodup

instance : DecidablePred NodupKeys := fun md =>
  inferInstanceAs (Decidable ((md.map Prod.fst).Nodup))

/-- Property read `metadata[key]` (`none` when the key is absent). -/
def lookupMeta : Metadata → String → Option JSValue
  | [], _ => none
  | kv :: rest, key => if kv.1 = key then some kv.2 else lookupMeta rest key

/-- The observable value of a metadata key for id derivation: `some s` iff the
key is present with a non-`null`, non-`undefined` value whose string form is `s`. -/
def getVal (md : Metadata) (k : String) : Option String :=
  match lookupMeta md k with
  | some (some s) => some s
  | _ => none

/-- Rendering `String(v)` of a `JSValue`; only ever applied to filtered (hence `some`)
values, so the `none` branch is arbitrary. -/
def jsString (v : JSValue) : String := v.getD "undefined"

/-- The allow-list of `filterMetadata` (src/src/stable-error.ts:61). -/
def allowedKeys : List String :=
  ["type", "code", "field", "operation", "service", "component"]

/-- Embedding of `filterMetadata` (src/src/stable-error.ts:56-71): keep entries whose key is
allow-listed and whose value is neither `undefined` nor `null`. -/
def filterMetadata (md : Metadata) : Metadata :=
  md.filter (fun kv => decide (kv.1 ∈ allowedKeys) && kv.2.isSome)

/-! ## Key sorting (`Object.keys(filtered).sort()`)

`Array.prototype.sort` with no comparator orders strings lexicographically by
UTF-16 code units.  Lean's built-in `String` order is not kernel-computable, so
the comparison is defined directly on character lists. -/

/-- Code-unit lexicographic `<` on character lists (the JavaScript `<` used by
the default sort comparator). -/
def charListLt : List Char → List Char → Bool
  | [], [] => false
  | [], _ :: _ => true
  | _ :: _, [] => false
  | a :: as, b :: bs => if a = b then charListLt as bs else decide (a.toNat < b.toNat)

/-- The sort order: `a` precedes `b` iff `b` is not strictly smaller. -/
def keyLe (a b : String) : Prop := charListLt b.data a.data = false

instance : DecidableRel keyLe := fun a b =>
  inferInstanceAs (Decidable (charListLt b.data a.data = false))

/-- Sorted key list of a metadata object, as produced by
`Object.keys(filtered).sort()`. -/
def sortKeys (md : Metadata) : List String :=
  List.insertionSort keyLe (md.map Prod.fst)

/-! ## Canonical string and hash -/

/-- Model of `Array.prototype.join(sep)`. -/
def joinSep (sep : String) : List String → String
  | [] => ""
  | p :: rest => rest.foldl (fun acc q => acc ++ sep ++ q) p

/-- Normalization `.toLowerCase().trim()` as applied to the category and to metadata values. -/
def strLowerTrim (s : String) : String := ⟨trimChars (s.data.map toLowerChar)⟩

/-- The canonical ("stable") string representation built by `generateStableId`
(src/src/stable-error.ts:81-98).  `category || ''` is the identity on strings
(the empty string maps to itself). -/
def stableString (message category : String) (metadata : Metadata) : String :=
  let parts := ["message:" ++ normalizeMessage message,
                "category:" ++ strLowerTrim category]
  let filtered := filterMetadata metadata
  let sortedKeys := sortKeys filtered
  let parts :=
    if sortedKeys.length > 0 then
      parts ++ ["metadata:" ++ joinSep ","
        (sortedKeys.map (fun key =>
          key ++ ":" ++ strLowerTrim (jsString ((lookupMeta filtered key).getD none))))]
    else parts
  joinSep "|" parts

/-- Truncation to a 32-bit signed integer (the effect of JavaScript `| 0`-style
coercions: `<<` and `& `on numbers). -/
def toInt32 (x : Int) : Int := (x + 2147483648) % 4294967296 - 2147483648

/-- One step of the hash loop (src/src/stable-error.ts:104-105):
`hash = ((hash << 5) - hash) + char; hash = hash & hash`.  The accumulator is
always a 32-bit value, so `hash << 5` is `toInt32 (hash * 32)`; the subtraction
and addition are exact in double precision at these magnitudes, and `hash & hash`
truncates the result back to 32 bits. -/
def hashStep (h : Int) (c : Nat) : Int := toInt32 (toInt32 (h * 32) - h + c)

/-- The rolling hash over the code units of the canonical string. -/
def hashString (s : String) : Int := s.data.foldl (fun h c => hashStep h c.toNat) 0

/-- The sixteen lowercase hex digit characters, as produced by
`Number.prototype.toString(16)`. -/
def hexDigitChar (n : Nat) : Char := "0123456789abcdef".data.getD n '0'

/-- Minimal-length base-16 digits of `n`, most significant first.  Fuel-based so
that it is kernel-computable; `n + 1` steps always suffice since the argument
strictly decreases. -/
def toHexList : Nat → Nat → List Char
  | 0, _ => []
  | fuel + 1, n => if n < 16 then [hexDigitChar n] else
      toHexList fuel (n / 16) ++ [hexDigitChar (n % 16)]

/-- Rendering `n.toString(16)` of a non-negative integer. -/
def natToHex (n : Nat) : String := ⟨toHexList (n + 1) n⟩

/-- Model of `String.prototype.padStart(8, '0')`. -/
def padStart8 (s : String) : String :=
  if s.length < 8 then ⟨List.replicate (8 - s.length) '0' ++ s.data⟩ else s

/-- Embedding of `generateStableId` (src/src/stable-error.ts:76-110):
`Math.abs(hash).toString(16).padStart(8, '0')` over the canonical string. -/
def generateStableId (message category : String) (metadata : Metadata) : String :=
  padStart8 (natToHex (hashString (stableString message category metadata)).natAbs)

/-! ## The error builder -/

/-- The closed severity enumeration. -/
inductive Severity
  | low | medium | high | critical
deriving DecidableEq, Repr

/-- The `options` argument of `createStableError`.  A `none` field models an
absent property. -/
structure StableErrorOptions where
  category : Option String := none
  metadata : Metadata := []
  severity : Option Severity := none
  statusCode : Option Int := none
deriving DecidableEq, Repr

/-- An error-like source object (`message`, `name`, `stack`). -/
structure JSError where
  message : String
  name : String
  stack : Option String
deriving DecidableEq, Repr

/-- The `messageOrError` argument. -/
inductive ErrorInput
  | msg (s : String)
  | err (e : JSError)
deriving DecidableEq, Repr

/-- The record produced by `createStableError`. -/
structure StableError where
  name : String
  id : String
  message : String
  category : String
  metadata : Metadata
  severity : Severity
  timestamp : String
  statusCode : Int
  stack : Option String
deriving DecidableEq, Repr

/-- The plain mapping returned by `toJSON()` — exactly eight fields. -/
structure ErrorJSON where
  id : String
  message : String
  category : String
  metadata : Metadata
  severity : Severity
  timestamp : String
  statusCode : Int
  stack : Option String
deriving DecidableEq, Repr

/-- Object spread override `{...md, k: v}`: replace the value in place if the
key exists, else append the new entry. -/
def setKey (md : Metadata) (k : String) (v : JSValue) : Metadata :=
  if (md.map Prod.fst).contains k then
    md.map (fun kv => if kv.1 = k then (kv.1, v) else kv)
  else md ++ [(k, v)]

/-- Embedding of `createStableError` (src/src/stable-error.ts:117-180).  The two effectful
inputs of the original — `new Date().toISOString()` and the stack produced by
`new Error(message)` — are passed in explicitly as `now` and `freshStack`.
`options.category || 'general'` and `options.statusCode || 500` replace any
falsy value (absent, or `""` / `0` respectively) by the default.  The source
overwrites the fresh stack only under a truthiness guard
(`if (originalStack) error.stack = originalStack`), so an `undefined` or
empty-string source stack keeps the fresh one. -/
def createStableError (input : ErrorInput) (options : StableErrorOptions)
    (now : String) (freshStack : Option String) : StableError :=
  let message := match input with
    | .msg s => s
    | .err e => e.message
  let originalStack : Option String := match input with
    | .msg _ => none
    | .err e => e.stack
  let originalName := match input with
    | .msg _ => "StableError"
    | .err e => e.name
  let category := match options.category with
    | none => "general"
    | some c => if c = "" then "general" else c
  let statusCode := match options.statusCode with
    | none => 500
    | some n => if n = 0 then 500 else n
  let metadata := match input with
    | .msg _ => options.metadata
    | .err _ =>
        setKey (setKey options.metadata "originalName" (some originalName))
          "originalStack" originalStack
  let severity := (options.severity).getD .medium
  let id := generateStableId message category metadata
  { name := "StableError", id, message, category, metadata, severity,
    timestamp := now, statusCode,
    stack := match originalStack with
      | some s => if s = "" then freshStack else some s
      | none => freshStack }

/-- The `toJSON()` method attached by `createStableError`
(src/src/stable-error.ts:166-177). -/
def StableError.toJSON (e : StableError) : ErrorJSON :=
  { id := e.id, message := e.message, category := e.category,
    metadata := e.metadata, severity := e.severity, timestamp := e.timestamp,
    statusCode := e.statusCode, stack := e.stack }

/-- The builder's category expression `options.category || 'general'`. -/
def categoryOf (options : StableErrorOptions) : String :=
  match options.category with
  | none => "general"
  | some c => if c = "" then "general" else c

/-- A lowercase hexadecimal digit `[0-9a-f]`. -/
def isLowerHexChar (c : Char) : Bool :=
  (decide (48 ≤ c.toNat) && decide (c.toNat ≤ 57)) ||
  (decide (97 ≤ c.toNat) && decide (c.toNat ≤ 102))

/-- The allow-list in ascending code-unit order, as consumed by the hasher. -/
def sortedAllowedKeys : List String :=
  ["code", "component", "field", "operation", "service", "type"]

/-! ## Lookup lemmas for the metadata merge -/

theorem lookupMeta_eq_none (md : Metadata) (k : String) (h : k ∉ md.map Prod.fst) :
    lookupMeta md k = none := by
  induction md with
  | nil => rfl
  | cons kv rest ih =>
    simp only [List.map_cons, List.mem_cons] at h
    push_neg at h
    simp only [lookupMeta, if_neg (fun hh : kv.1 = k => h.1 hh.symm)]
    exact ih h.2

theorem lookupMeta_append_right (md l2 : Metadata) (k : String)
    (h : k ∉ md.map Prod.fst) :
    lookupMeta (md ++ l2) k = lookupMeta l2 k := by
  induction md with
  | nil => rfl
  | cons kv rest ih =>
    simp only [List.map_cons, List.mem_cons] at h
    push_neg at h
    simp only [List.cons_append, lookupMeta, if_neg (fun hh : kv.1 = k => h.1 hh.symm)]
    exact ih h.2

theorem lookupMeta_replaceAll (md : Metadata) (k : String) (v : JSValue)
    (h : k ∈ md.map Prod.fst) :
    lookupMeta (md.map (fun kv => if kv.1 = k then (kv.1, v) else kv)) k = some v := by
  induction md with
  | nil => simp at h
  | cons kv rest ih =>
    by_cases hk : kv.1 = k
    · simp [lookupMeta, hk]
    · simp only [List.map_cons, if_neg hk, lookupMeta, if_neg hk]
      apply ih
      simp only [List.map_cons, List.mem_cons] at h
      exact h.resolve_left (fun hh => hk hh.symm)

theorem lookupMeta_replaceAll_other (md : Metadata) (k : String) (v : JSValue)
    (k' : String) (h : k' ≠ k) :
    lookupMeta (md.map (fun kv => if kv.1 = k then (kv.1, v) else kv)) k' =
      lookupMeta md k' := by
  induction md with
  | nil => rfl
  | cons kv rest ih =>
    by_cases hk : kv.1 = k
    · have hne : ¬ kv.1 = k' := fun hh => h (hh ▸ hk)
      simp only [List.map_cons, if_pos hk, lookupMeta, if_neg hne]
      exact ih
    · simp only [List.map_cons, if_neg hk, lookupMeta]
      by_cases hk' : kv.1 = k'
      · simp [hk']
      · simp [hk', ih]

theorem lookupMeta_setKey_self (md : Metadata) (k : String) (v : JSValue) :
    lookupMeta (setKey md k v) k = some v := by
  unfold setKey
  by_cases h : k ∈ md.map Prod.fst
  · rw [if_pos (by simpa using h)]
    exact lookupMeta_replaceAll md k v h
  · rw [if_neg (by simpa using h)]
    rw [lookupMeta_append_right md _ k h]
    simp [lookupMeta]

theorem lookupMeta_append_single_other (md : Metadata) (k k' : String) (v : JSValue)
    (h : k' ≠ k) :
    lookupMeta (md ++ [(k, v)]) k' = lookupMeta md k' := by
  induction md with
  | nil =>
    simp only [List.nil_append, lookupMeta]
    rw [if_neg (fun hh : k = k' => h hh.symm)]
  | cons kv rest ih =>
    simp only [List.cons_append, lookupMeta]
    by_cases hk' : kv.1 = k'
    · simp [hk']
    · simp [hk', ih]

theorem lookupMeta_setKey_other (md : Metadata) (k k' : String) (v : JSValue)
    (h : k' ≠ k) :
    lookupMeta (setKey md k v) k' = lookupMeta md k' := by
  unfold setKey
  split
  · exact lookupMeta_replaceAll_other md k v k' h
  · exact lookupMeta_append_single_other md k k' v h

/-! ## Claims C7–C10: the error builder -/

/-- Claim C7, counterexample: the source's stack is not adopted whenever it is
present — the code's adoption guard `if (originalStack)` is a truthiness
check, so a wrapped error whose stack is the empty string keeps the fresh
`new Error(message)` stack instead of the source's. -/
theorem claim_C7_wrapping_counterexample :
    ¬ ((createStableError (.err ⟨"boom", "TypeError", some ""⟩) {}
        "2024-01-01T00:00:00.000Z" (some "fresh-stack")).stack = some "") ∧
    (createStableError (.err ⟨"boom", "TypeError", some ""⟩) {}
      "2024-01-01T00:00:00.000Z" (some "fresh-stack")).stack =
      some "fresh-stack" := by
  constructor
  · decide
  · decide

/-- Claim C7, amended: When `createStableError` is given an error-like source,
the record's message equals the source's message; the stored metadata is
`options.metadata` with `originalName := source.name` and
`originalStack := source.stack` always added (the originals overriding
same-named options keys, all other keys untouched); the source's stack is
adopted verbatim when present and non-empty (the code adopts it only when
truthy); and the record's name is the constant `"StableError"`. -/
theorem claim_C7_wrapping (e : JSError) (options : StableErrorOptions)
    (now : String) (freshStack : Option String) :
    (createStableError (.err e) options now freshStack).message = e.message ∧
    lookupMeta (createStableError (.err e) options now freshStack).metadata
      "originalName" = some (some e.name) ∧
    lookupMeta (createStableError (.err e) options now freshStack).metadata
      "originalStack" = some e.stack ∧
    (∀ k : String, k ≠ "originalName" → k ≠ "originalStack" →
      lookupMeta (createStableError (.err e) options now freshStack).metadata k =
        lookupMeta options.metadata k) ∧
    (∀ s : String, e.stack = some s → s ≠ "" →
      (createStableError (.err e) options now freshStack).stack = some s) ∧
    (createStableError (.err e) options now freshStack).name = "StableError" := by
  refine ⟨rfl, ?_, ?_, ?_, ?_, rfl⟩
  · show lookupMeta (setKey (setKey options.metadata "originalName" (some e.name))
      "originalStack" e.stack) "originalName" = some (some e.name)
    rw [lookupMeta_setKey_other _ _ _ _ (by decide)]
    exact lookupMeta_setKey_self _ _ _
  · exact lookupMeta_setKey_self _ _ _
  · intro k hk1 hk2
    show lookupMeta (setKey (setKey options.metadata "originalName" (some e.name))
      "originalStack" e.stack) k = lookupMeta options.metadata k
    rw [lookupMeta_setKey_other _ _ _ _ hk2, lookupMeta_setKey_other _ _ _ _ hk1]
  · intro s hs hne
    show (match e.stack with
      | some s => if s = "" then freshStack else some s
      | none => freshStack) = some s
    rw [hs]
    simp [hne]

/-- Closed witness for C7 at a concrete wrapped error (the options-supplied
`originalName` key is overridden, unrelated keys survive, the non-empty stack
is adopted). -/
theorem claim_C7_wrapping_witness :
    lookupMeta (createStableError (.err ⟨"boom", "TypeError", some "trace0"⟩)
      { metadata := [("originalName", some "x"), ("foo", some "bar")] }
      "2024-01-01T00:00:00.000Z" none).metadata "foo" = some (some "bar") ∧
    (createStableError (.err ⟨"boom", "TypeError", some "trace0"⟩)
      { metadata := [("originalName", some "x"), ("foo", some "bar")] }
      "2024-01-01T00:00:00.000Z" none).stack = some "trace0" :=
  ⟨(claim_C7_wrapping ⟨"boom", "TypeError", some "trace0"⟩
      { metadata := [("originalName", some "x"), ("foo", some "bar")] }
      "2024-01-01T00:00:00.000Z" none).2.2.2.1 "foo" (by decide) (by decide),
   (claim_C7_wrapping ⟨"boom", "TypeError", some "trace0"⟩
      { metadata := [("originalName", some "x"), ("foo", some "bar")] }
      "2024-01-01T00:00:00.000Z" none).2.2.2.2.1 "trace0" rfl (by decide)⟩

/-- Claim C8: `toJSON()` of every record produced by `createStableError` is the
plain mapping with exactly the eight fields `id, message, category, metadata,
severity, timestamp, statusCode, stack`, each equal to the corresponding record
field (the `ErrorJSON` shape has no further fields). -/
theorem claim_C8_toJSON (input : ErrorInput) (options : StableErrorOptions)
    (now : String) (freshStack : Option String) :
    (createStableError input options now freshStack).toJSON =
      { id := (createStableError input options now freshStack).id,
        message := (createStableError input options now freshStack).message,
        category := (createStableError input options now freshStack).category,
        metadata := (createStableError input options now freshStack).metadata,
        severity := (createStableError input options now freshStack).severity,
        timestamp := (createStableError input options now freshStack).timestamp,
        statusCode := (createStableError input options now freshStack).statusCode,
        stack := (createStableError input options now freshStack).stack } := rfl

/-- Claim C9: Constructing from a bare text message with no options yields
`category = "general"`, `severity = medium`, `statusCode = 500` and empty
metadata; and the `"general"` default also applies when the supplied category is
the empty string. -/
theorem claim_C9_defaults :
    (∀ (m now : String) (freshStack : Option String),
      (createStableError (.msg m) {} now freshStack).category = "general" ∧
      (createStableError (.msg m) {} now freshStack).severity = .medium ∧
      (createStableError (.msg m) {} now freshStack).statusCode = 500 ∧
      (createStableError (.msg m) {} now freshStack).metadata = []) ∧
    (∀ (input : ErrorInput) (md : Metadata) (sev : Option Severity)
      (sc : Option Int) (now : String) (freshStack : Option String),
      (createStableError input ⟨some "", md, sev, sc⟩ now freshStack).category =
        "general") := by
  exact ⟨fun m now freshStack => ⟨rfl, rfl, rfl, rfl⟩,
    fun input md sev sc now freshStack => rfl⟩

/-- Claim C10: Passing `options.statusCode = 0` yields `statusCode = 500`: the
`|| 500` default replaces every falsy status code, not only an absent one. -/
theorem claim_C10_statusCode_zero (input : ErrorInput) (cat : Option String)
    (md : Metadata) (sev : Option Severity) (now : String)
    (freshStack : Option String) :
    (createStableError input
      { category := cat, metadata := md, severity := sev, statusCode := some 0 }
      now freshStack).statusCode = 500 := rfl

/-! ## Hash arithmetic (claims C2, C3) -/

theorem toInt32_lb (x : Int) : -2147483648 ≤ toInt32 x := by
  unfold toInt32; omega

theorem toInt32_ub (x : Int) : toInt32 x < 2147483648 := by
  unfold toInt32; omega

/-- Collapsing the inner 32-bit truncation of the shift: truncating before the
subtraction and addition does not change the final truncated value. -/
theorem hashStep_eq_single (h : Int) (c : Nat) :
    hashStep h c = toInt32 (h * 32 - h + c) := by
  unfold hashStep toInt32; omega

theorem hashString_range (s : String) :
    -2147483648 ≤ hashString s ∧ hashString s < 2147483648 := by
  have key : ∀ (l : List Char) (a : Int), -2147483648 ≤ a → a < 2147483648 →
      -2147483648 ≤ l.foldl (fun h c => hashStep h c.toNat) a ∧
        l.foldl (fun h c => hashStep h c.toNat) a < 2147483648 := by
    intro l
    induction l with
    | nil => intro a h1 h2; exact ⟨h1, h2⟩
    | cons c rest ih =>
      intro a _ _
      simp only [List.foldl_cons]
      exact ih _ (toInt32_lb _) (toInt32_ub _)
  exact key s.data 0 (by decide) (by decide)

set_option maxRecDepth 8000 in
/-- Claim C2, counterexample: The claimed per-character recurrence
`acc = trunc32 (acc*31 - acc + c)` does not compute the hash of the canonical
string of the empty message/category/metadata: the code's recurrence is
`((acc << 5) - acc) + c`, i.e. `acc*32 - acc + c`, not `acc*31 - acc + c`. -/
theorem claim_C2_counterexample :
    ¬ (hashString (stableString "" "" []) =
      (stableString "" "" []).data.foldl
        (fun h c => toInt32 (h * 31 - h + c.toNat)) 0) := by decide

/-- Claim C2, amended: For every canonical string (indeed every string), the hash
is computed left-to-right from an accumulator initialized to 0, updating for
each character code `c` as `acc = (acc*32 - acc + c)` truncated to a 32-bit
signed integer — which is exactly `acc = ((acc << 5) - acc) + c` wrapped to
32 bits as performed by the code. -/
theorem claim_C2_hash_recurrence (s : String) :
    hashString s =
      s.data.foldl (fun h c => toInt32 (h * 32 - h + c.toNat)) 0 := by
  unfold hashString
  have : (fun (h : Int) (c : Char) => hashStep h c.toNat) =
      (fun (h : Int) (c : Char) => toInt32 (h * 32 - h + c.toNat)) :=
    funext fun h => funext fun c => hashStep_eq_single h c.toNat
  rw [this]

/-! ## Hex rendering (claim C3) -/

theorem hexDigitChar_lower (n : Nat) : isLowerHexChar (hexDigitChar n) = true := by
  unfold hexDigitChar
  by_cases h : n < 16
  · interval_cases n <;> decide
  · rw [List.getD_eq_default _ _ (by simpa using Nat.le_of_not_lt h)]
    decide

theorem toHexList_chars (fuel n : Nat) :
    ∀ c ∈ toHexList fuel n, isLowerHexChar c = true := by
  induction fuel generalizing n with
  | zero => simp [toHexList]
  | succ f ih =>
    unfold toHexList
    by_cases h : n < 16
    · simp [h, hexDigitChar_lower]
    · simp only [if_neg h]
      intro c hc
      rcases List.mem_append.mp hc with h1 | h2
      · exact ih _ c h1
      · rcases List.mem_singleton.mp h2 with rfl
        exact hexDigitChar_lower _

theorem toHexList_length (fuel : Nat) :
    ∀ (n k : Nat), 1 ≤ k → n < 16 ^ k → (toHexList fuel n).length ≤ k := by
  induction fuel with
  | zero => intro n k _ _; simp [toHexList]
  | succ f ih =>
    intro n k hk hn
    unfold toHexList
    by_cases h : n < 16
    · simpa [h] using hk
    · have hk2 : 2 ≤ k := by
        rcases Nat.lt_or_ge k 2 with hlt | hge
        · have : k = 1 := by omega
          subst this
          simp at hn
          omega
        · exact hge
      have hpow : 16 ^ k = 16 ^ (k - 1) * 16 := by
        rw [← pow_succ]
        congr 1
        omega
      have hdiv : n / 16 < 16 ^ (k - 1) := by
        apply Nat.div_lt_of_lt_mul
        omega
      have := ih (n / 16) (k - 1) (by omega) hdiv
      simp only [if_neg h, List.length_append, List.length_singleton]
      omega

/-- Claim C3: For every input triple, the derived id is exactly 8 characters, all
lowercase hexadecimal digits: the absolute value of a 32-bit signed hash is at
most `2^31 < 16^8`, so its minimal hex rendering has at most 8 digits and
`padStart(8, '0')` brings it to exactly 8. -/
theorem claim_C3_id_shape (m c : String) (md : Metadata) :
    (generateStableId m c md).length = 8 ∧
    ∀ ch ∈ (generateStableId m c md).data, isLowerHexChar ch = true := by
  unfold generateStableId
  have h1 := hashString_range (stableString m c md)
  have hlt : (hashString (stableString m c md)).natAbs < 16 ^ 8 := by
    have h8 : (16 : Nat) ^ 8 = 4294967296 := by norm_num
    omega
  have hlen : (natToHex (hashString (stableString m c md)).natAbs).length ≤ 8 :=
    toHexList_length _ _ 8 (by omega) hlt
  constructor
  · unfold padStart8
    by_cases hl : (natToHex (hashString (stableString m c md)).natAbs).length < 8
    · rw [if_pos hl]
      show (List.replicate (8 - (natToHex
        (hashString (stableString m c md)).natAbs).length) '0' ++
        (natToHex (hashString (stableString m c md)).natAbs).data).length = 8
      simp only [List.length_append, List.length_replicate]
      have : (natToHex (hashString (stableString m c md)).natAbs).data.length =
          (natToHex (hashString (stableString m c md)).natAbs).length := rfl
      omega
    · rw [if_neg hl]
      omega
  · intro ch hch
    unfold padStart8 at hch
    by_cases hl : (natToHex (hashString (stableString m c md)).natAbs).length < 8
    · rw [if_pos hl] at hch
      rcases List.mem_append.mp hch with hrep | hhex
      · rcases List.eq_of_mem_replicate hrep with rfl
        decide
      · exact toHexList_chars _ _ ch hhex
    · rw [if_neg hl] at hch
      exact toHexList_chars _ _ ch hch

/-! ## The sort order is a linear order (claims C1, C4) -/

theorem char_toNat_inj {a b : Char} (h : a.toNat = b.toNat) : a = b :=
  Char.ext (UInt32.ext h)

theorem string_data_inj {a b : String} (h : a.data = b.data) : a = b := by
  cases a; cases b; exact congrArg String.mk h

theorem charListLt_asymm (as bs : List Char) (h : charListLt as bs = true) :
    charListLt bs as = false := by
  induction as generalizing bs with
  | nil =>
    cases bs with
    | nil => simp [charListLt] at h
    | cons b bs' => simp [charListLt]
  | cons a as' ih =>
    cases bs with
    | nil => simp [charListLt] at h
    | cons b bs' =>
      by_cases hab : a = b
      · subst hab
        simp only [charListLt, if_pos rfl] at h ⊢
        exact ih bs' h
      · have hba : ¬ b = a := fun hh => hab hh.symm
        simp only [charListLt, if_neg hab] at h
        simp only [charListLt, if_neg hba]
        simp only [decide_eq_true_eq] at h
        simp only [decide_eq_false_iff_not]
        omega

theorem charListLt_connex (as bs : List Char) (h : charListLt as bs = false) :
    as = bs ∨ charListLt bs as = true := by
  induction as generalizing bs with
  | nil =>
    cases bs with
    | nil => left; rfl
    | cons b bs' => simp [charListLt] at h
  | cons a as' ih =>
    cases bs with
    | nil => right; simp [charListLt]
    | cons b bs' =>
      by_cases hab : a = b
      · subst hab
        simp only [charListLt, if_pos rfl] at h
        rcases ih bs' h with rfl | hlt
        · left; rfl
        · right
          simp only [charListLt, if_pos rfl]
          exact hlt
      · simp only [charListLt, if_neg hab, decide_eq_false_iff_not] at h
        right
        have hba : ¬ b = a := fun hh => hab hh.symm
        simp only [charListLt, if_neg hba, decide_eq_true_eq]
        rcases Nat.lt_or_ge b.toNat a.toNat with h1 | h2
        · exact h1
        · exact absurd (char_toNat_inj (by omega)) hab

theorem charListLt_trans (as bs cs : List Char) (h1 : charListLt as bs = true)
    (h2 : charListLt bs cs = true) : charListLt as cs = true := by
  induction as generalizing bs cs with
  | nil =>
    cases bs with
    | nil => simp [charListLt] at h1
    | cons b bs' =>
      cases cs with
      | nil => simp [charListLt] at h2
      | cons c cs' => simp [charListLt]
  | cons a as' ih =>
    cases bs with
    | nil => simp [charListLt] at h1
    | cons b bs' =>
      cases cs with
      | nil => simp [charListLt] at h2
      | cons c cs' =>
        by_cases hab : a = b
        · subst hab
          simp only [charListLt, if_pos rfl] at h1
          by_cases hbc : a = c
          · subst hbc
            simp only [charListLt, if_pos rfl] at h2 ⊢
            exact ih bs' cs' h1 h2
          · simp only [charListLt, if_neg hbc] at h2 ⊢
            exact h2
        · simp only [charListLt, if_neg hab, decide_eq_true_eq] at h1
          by_cases hbc : b = c
          · subst hbc
            have hac : ¬ a = b := hab
            simp only [charListLt, if_neg hac, decide_eq_true_eq]
            exact h1
          · simp only [charListLt, if_neg hbc, decide_eq_true_eq] at h2
            have hac : ¬ a = c := fun hh => by
              subst hh
              omega
            simp only [charListLt, if_neg hac, decide_eq_true_eq]
            omega

instance : IsTotal String keyLe :=
  ⟨fun a b => by
    unfold keyLe
    by_cases h : charListLt b.data a.data = true
    · exact Or.inr (charListLt_asymm _ _ h)
    · exact Or.inl (by simpa using h)⟩

instance : IsTrans String keyLe :=
  ⟨fun a b c h1 h2 => by
    unfold keyLe at h1 h2 ⊢
    by_contra hcon
    have hc : charListLt c.data a.data = true := by
      rcases Bool.eq_false_or_eq_true (charListLt c.data a.data) with ht | hf
      · exact ht
      · exact absurd hf hcon
    rcases charListLt_connex _ _ h1 with heq | hba
    · rw [← heq] at hc
      exact absurd hc (by simp [h2])
    · rcases charListLt_connex _ _ h2 with heq2 | hcb
      · rw [heq2] at hc
        exact absurd hc (by simp [h1])
      · have := charListLt_trans _ _ _ hba hcb
        exact absurd hc (by simp [charListLt_asymm _ _ this])⟩

instance : IsAntisymm String keyLe :=
  ⟨fun a b h1 h2 => by
    unfold keyLe at h1 h2
    rcases charListLt_connex _ _ h1 with heq | hlt
    · exact (string_data_inj heq).symm
    · exact absurd hlt (by simp [h2])⟩

/-! ## Characterizing the filtered, sorted key list (claims C1, C4) -/

theorem mem_allowed_iff_sorted (k : String) :
    k ∈ allowedKeys ↔ k ∈ sortedAllowedKeys := by
  simp only [allowedKeys, sortedAllowedKeys, List.mem_cons, List.not_mem_nil,
    or_false]
  tauto

theorem lookupMeta_some_mem (md : Metadata) (k : String) (v : JSValue)
    (h : lookupMeta md k = some v) : (k, v) ∈ md := by
  induction md with
  | nil => simp [lookupMeta] at h
  | cons kv rest ih =>
    rcases kv with ⟨a, b⟩
    by_cases hk : a = k
    · simp only [lookupMeta, if_pos hk, Option.some.injEq] at h
      subst hk
      subst h
      exact List.mem_cons_self _ _
    · simp only [lookupMeta, if_neg hk] at h
      exact List.mem_cons_of_mem _ (ih h)

theorem mem_lookupMeta_nodup (md : Metadata) (k : String) (v : JSValue)
    (hnd : NodupKeys md) (h : (k, v) ∈ md) : lookupMeta md k = some v := by
  induction md with
  | nil => simp at h
  | cons kv rest ih =>
    unfold NodupKeys at hnd
    simp only [List.map_cons, List.nodup_cons] at hnd
    rcases List.mem_cons.mp h with heq | hmem
    · rw [← heq]
      simp [lookupMeta]
    · have hk : ¬ kv.1 = k := by
        intro hh
        apply hnd.1
        rw [hh]
        exact List.mem_map.mpr ⟨(k, v), hmem, rfl⟩
      simp only [lookupMeta, if_neg hk]
      exact ih hnd.2 hmem

theorem getVal_eq_some_iff (md : Metadata) (k : String) (s : String) :
    getVal md k = some s ↔ lookupMeta md k = some (some s) := by
  unfold getVal
  cases h : lookupMeta md k with
  | none => simp
  | some v =>
    cases v with
    | none => simp
    | some t => simp

theorem getVal_isSome_iff (md : Metadata) (k : String) :
    (getVal md k).isSome = true ↔ ∃ s, lookupMeta md k = some (some s) := by
  cases h : getVal md k with
  | none =>
    simp only [Option.isSome_none, Bool.false_eq_true, false_iff]
    intro ⟨s, hs⟩
    rw [(getVal_eq_some_iff md k s).mpr hs] at h
    exact Option.noConfusion h
  | some s =>
    simp only [Option.isSome_some, true_iff]
    exact ⟨s, (getVal_eq_some_iff md k s).mp h⟩

theorem NodupKeys_filterMetadata (md : Metadata) (h : NodupKeys md) :
    NodupKeys (filterMetadata md) :=
  List.Nodup.sublist (List.Sublist.map Prod.fst (List.filter_sublist md)) h

theorem mem_filterKeys_iff (md : Metadata) (hnd : NodupKeys md) (k : String) :
    k ∈ (filterMetadata md).map Prod.fst ↔
      k ∈ allowedKeys ∧ (getVal md k).isSome = true := by
  constructor
  · intro hk
    rcases List.mem_map.mp hk with ⟨kv, hkv, rfl⟩
    rcases List.mem_filter.mp hkv with ⟨hmem, hp⟩
    simp only [Bool.and_eq_true, decide_eq_true_eq] at hp
    refine ⟨hp.1, ?_⟩
    obtain ⟨s, hs2⟩ := Option.isSome_iff_exists.mp hp.2
    rw [getVal_isSome_iff]
    refine ⟨s, ?_⟩
    rw [← hs2]
    exact mem_lookupMeta_nodup md kv.1 kv.2 hnd hmem
  · intro ⟨hall, hsome⟩
    rcases (getVal_isSome_iff md k).mp hsome with ⟨s, hs⟩
    have hmem : (k, some s) ∈ md := lookupMeta_some_mem md k (some s) hs
    refine List.mem_map.mpr ⟨(k, some s), ?_, rfl⟩
    refine List.mem_filter.mpr ⟨hmem, ?_⟩
    simp [hall]

/-- The value stored in the filtered object at a surviving key. -/
theorem lookupMeta_filter_of_getVal (md : Metadata) (hnd : NodupKeys md)
    (k s : String) (hall : k ∈ allowedKeys) (hs : getVal md k = some s) :
    lookupMeta (filterMetadata md) k = some (some s) := by
  have hmem : (k, some s) ∈ md :=
    lookupMeta_some_mem md k (some s) ((getVal_eq_some_iff md k s).mp hs)
  apply mem_lookupMeta_nodup _ _ _ (NodupKeys_filterMetadata md hnd)
  refine List.mem_filter.mpr ⟨hmem, ?_⟩
  simp [hall]

/-- Master key lemma: with distinct keys, the sorted key list of the filtered
metadata is exactly the ascending allow-list restricted to the keys that
survive filtering. -/
theorem sortKeys_filterMetadata (md : Metadata) (hnd : NodupKeys md) :
    sortKeys (filterMetadata md) =
      sortedAllowedKeys.filter (fun k => (getVal md k).isSome) := by
  unfold sortKeys
  apply List.eq_of_perm_of_sorted (r := keyLe)
  · apply List.perm_of_nodup_nodup_toFinset_eq
    · exact ((List.perm_insertionSort keyLe _).nodup_iff).mpr
        (NodupKeys_filterMetadata md hnd)
    · exact List.Nodup.filter _ (by decide)
    · apply Finset.ext
      intro k
      simp only [List.mem_toFinset]
      rw [(List.perm_insertionSort keyLe _).mem_iff]
      rw [mem_filterKeys_iff md hnd k]
      rw [List.mem_filter]
      rw [mem_allowed_iff_sorted]
  · exact List.sorted_insertionSort keyLe _
  · exact List.Sorted.filter _ (by decide)

/-! ## String-append algebra -/

theorem strAppend_assoc (a b c : String) : a ++ b ++ c = a ++ (b ++ c) := by
  apply string_data_inj
  simp [String.data_append]

theorem strAppend_nil (a : String) : a ++ "" = a := by
  apply string_data_inj
  rw [String.data_append]
  show a.data ++ [] = a.data
  simp

theorem strLit_split_cat (x : String) :
    ("|category:" : String) ++ x = "|" ++ ("category:" ++ x) := by
  apply string_data_inj
  simp only [String.data_append, ← List.append_assoc]
  congr 1

theorem strLit_split_meta (x : String) :
    ("|metadata:" : String) ++ x = "|" ++ ("metadata:" ++ x) := by
  apply string_data_inj
  simp only [String.data_append, ← List.append_assoc]
  congr 1

/-- Master canonical-string lemma: with distinct metadata keys, the canonical
string is the spec's format — `message:` + normalized message, `|category:` +
lowercase-trimmed category, and (only when some allow-listed key survives)
`|metadata:` + comma-joined `key:value` parts over the surviving allow-listed
keys in ascending order, with lowercase-trimmed string values. -/
theorem stableString_canonical (m c : String) (md : Metadata)
    (hnd : NodupKeys md) :
    stableString m c md =
      "message:" ++ normalizeMessage m ++ "|category:" ++ strLowerTrim c ++
      (if sortedAllowedKeys.filter (fun k => (getVal md k).isSome) = [] then ""
       else "|metadata:" ++ joinSep ","
         ((sortedAllowedKeys.filter (fun k => (getVal md k).isSome)).map
           (fun k => k ++ ":" ++ strLowerTrim ((getVal md k).getD "")))) := by
  have hkeys := sortKeys_filterMetadata md hnd
  by_cases hks : sortedAllowedKeys.filter (fun k => (getVal md k).isSome) = []
  · rw [if_pos hks]
    rw [hks] at hkeys
    simp only [stableString, hkeys, List.length_nil, gt_iff_lt,
      Nat.lt_irrefl, if_false, joinSep, List.foldl_cons, List.foldl_nil]
    rw [strAppend_nil]
    simp only [strAppend_assoc, strLit_split_cat]
  · rw [if_neg hks]
    have hpos : (sortedAllowedKeys.filter (fun k => (getVal md k).isSome)).length > 0 := by
      cases hfl : sortedAllowedKeys.filter (fun k => (getVal md k).isSome) with
      | nil => exact absurd hfl hks
      | cons x xs => simp
    have hmap :
        (sortedAllowedKeys.filter (fun k => (getVal md k).isSome)).map
          (fun key => key ++ ":" ++
            strLowerTrim (jsString ((lookupMeta (filterMetadata md) key).getD none))) =
        (sortedAllowedKeys.filter (fun k => (getVal md k).isSome)).map
          (fun k => k ++ ":" ++ strLowerTrim ((getVal md k).getD "")) := by
      apply List.map_congr_left
      intro k hk
      rcases List.mem_filter.mp hk with ⟨hmem, hsome⟩
      obtain ⟨s, hs⟩ := Option.isSome_iff_exists.mp hsome
      have hall : k ∈ allowedKeys := (mem_allowed_iff_sorted k).mpr hmem
      rw [lookupMeta_filter_of_getVal md hnd k s hall hs, hs]
      rfl
    simp only [stableString, hkeys, hpos, if_pos, hmap, joinSep,
      List.cons_append, List.nil_append, List.foldl_cons, List.foldl_nil]
    simp only [strAppend_assoc, strLit_split_cat, strLit_split_meta]

/-- Claim C4: The canonical string hashed by the stable hasher equals `"message:"`
+ the normalized message, then `"|category:"` + the lowercased-trimmed category,
and — only when the filtered metadata is non-empty — a final
`"|metadata:k1:v1,k2:v2,..."` part whose keys are the surviving allow-listed
keys in ascending order and whose values are their lowercase-trimmed string
forms; non-allow-listed keys and absent/null values never appear. -/
theorem claim_C4_canonical_string (m c : String) (md : Metadata)
    (hnd : NodupKeys md) :
    stableString m c md =
      "message:" ++ normalizeMessage m ++ "|category:" ++ strLowerTrim c ++
      (if sortedAllowedKeys.filter (fun k => (getVal md k).isSome) = [] then ""
       else "|metadata:" ++ joinSep ","
         ((sortedAllowedKeys.filter (fun k => (getVal md k).isSome)).map
           (fun k => k ++ ":" ++ strLowerTrim ((getVal md k).getD "")))) :=
  stableString_canonical m c md hnd

/-- Closed witness for C4 at a concrete metadata object with an ignored key, a
null-valued allow-listed key and a surviving allow-listed key. -/
theorem claim_C4_canonical_string_witness :
    NodupKeys [("userId", some "42"), ("type", some " Validation "),
      ("code", none)] ∧
    stableString "User 42 not found" " Auth "
      [("userId", some "42"), ("type", some " Validation "), ("code", none)] =
      "message:" ++ normalizeMessage "User 42 not found" ++ "|category:" ++
        strLowerTrim " Auth " ++
      (if sortedAllowedKeys.filter (fun k =>
          (getVal [("userId", some "42"), ("type", some " Validation "),
            ("code", none)] k).isSome) = [] then ""
       else "|metadata:" ++ joinSep ","
         ((sortedAllowedKeys.filter (fun k =>
            (getVal [("userId", some "42"), ("type", some " Validation "),
              ("code", none)] k).isSome)).map
           (fun k => k ++ ":" ++ strLowerTrim
             ((getVal [("userId", some "42"), ("type", some " Validation "),
               ("code", none)] k).getD "")))) :=
  ⟨by decide, claim_C4_canonical_string "User 42 not found" " Auth "
    [("userId", some "42"), ("type", some " Validation "), ("code", none)]
    (by decide)⟩

/-! ## Claim C1: the id is a pure function of the allow-listed view -/

theorem getVal_setKey_other (md : Metadata) (k k' : String) (v : JSValue)
    (h : k' ≠ k) : getVal (setKey md k v) k' = getVal md k' := by
  unfold getVal
  rw [lookupMeta_setKey_other md k k' v h]

theorem NodupKeys_setKey (md : Metadata) (k : String) (v : JSValue)
    (h : NodupKeys md) : NodupKeys (setKey md k v) := by
  unfold setKey
  by_cases hc : k ∈ md.map Prod.fst
  · rw [if_pos (by simpa using hc)]
    unfold NodupKeys at h ⊢
    have hkeys : (md.map (fun kv => if kv.1 = k then (kv.1, v) else kv)).map
        Prod.fst = md.map Prod.fst := by
      rw [List.map_map]
      apply List.map_congr_left
      intro kv _
      by_cases hkv : kv.1 = k
      · simp [hkv]
      · simp [hkv]
    rw [hkeys]
    exact h
  · rw [if_neg (by simpa using hc)]
    unfold NodupKeys at h ⊢
    rw [List.map_append]
    simp only [List.map_cons, List.map_nil]
    rw [List.nodup_append]
    refine ⟨h, List.nodup_singleton k, ?_⟩
    intro a ha hb
    rcases List.mem_singleton.mp hb with rfl
    exact hc ha

/-- Shared congruence core: the id depends on the metadata only through the
observable values of the six allow-listed keys. -/
theorem generateStableId_congr (m c : String) (md1 md2 : Metadata)
    (h1 : NodupKeys md1) (h2 : NodupKeys md2)
    (hag : ∀ k ∈ allowedKeys, getVal md1 k = getVal md2 k) :
    generateStableId m c md1 = generateStableId m c md2 := by
  have hg : ∀ k ∈ sortedAllowedKeys, getVal md1 k = getVal md2 k :=
    fun k hk => hag k ((mem_allowed_iff_sorted k).mpr hk)
  have hss : stableString m c md1 = stableString m c md2 := by
    rw [stableString_canonical m c md1 h1, stableString_canonical m c md2 h2]
    have hfilter : sortedAllowedKeys.filter (fun k => (getVal md1 k).isSome) =
        sortedAllowedKeys.filter (fun k => (getVal md2 k).isSome) :=
      List.filter_congr (fun k hk => by rw [hg k hk])
    rw [hfilter]
    have hmap : (sortedAllowedKeys.filter (fun k => (getVal md2 k).isSome)).map
        (fun k => k ++ ":" ++ strLowerTrim ((getVal md1 k).getD "")) =
      (sortedAllowedKeys.filter (fun k => (getVal md2 k).isSome)).map
        (fun k => k ++ ":" ++ strLowerTrim ((getVal md2 k).getD "")) :=
      List.map_congr_left (fun k hk =>
        by rw [hg k (List.mem_of_mem_filter hk)])
    rw [hmap]
  unfold generateStableId
  rw [hss]

/-- The id field of a built record, unfolded (text source). -/
theorem createStableError_id_msg (s : String) (options : StableErrorOptions)
    (now : String) (freshStack : Option String) :
    (createStableError (.msg s) options now freshStack).id =
      generateStableId s (categoryOf options) options.metadata := by
  rcases options with ⟨cat, md, sev, sc⟩
  cases cat <;> rfl

/-- The id field of a built record, unfolded (error-like source). -/
theorem createStableError_id_err (e : JSError) (options : StableErrorOptions)
    (now : String) (freshStack : Option String) :
    (createStableError (.err e) options now freshStack).id =
      generateStableId e.message (categoryOf options)
        (setKey (setKey options.metadata "originalName" (some e.name))
          "originalStack" e.stack) := by
  rcases options with ⟨cat, md, sev, sc⟩
  cases cat <;> simp [createStableError, categoryOf, generateStableId]

/-- Claim C1: The derived id is a pure function of the message, the category and
the observable values of the allow-listed metadata keys: (i) two metadata
mappings agreeing on the allow-listed keys give the same id; (ii) at the
builder level, varying `severity`, `statusCode`, the timestamp or the fresh
stack never changes the id; (iii) wrapping two error-like sources with the same
message (their `name`/`stack` folded into non-allow-listed metadata keys)
gives the same id. -/
theorem claim_C1_id_pure :
    (∀ (m c : String) (md1 md2 : Metadata), NodupKeys md1 → NodupKeys md2 →
      (∀ k ∈ allowedKeys, getVal md1 k = getVal md2 k) →
      generateStableId m c md1 = generateStableId m c md2) ∧
    (∀ (input : ErrorInput) (o1 o2 : StableErrorOptions) (now1 now2 : String)
      (fs1 fs2 : Option String), o1.category = o2.category →
      o1.metadata = o2.metadata →
      (createStableError input o1 now1 fs1).id =
        (createStableError input o2 now2 fs2).id) ∧
    (∀ (e1 e2 : JSError) (o : StableErrorOptions) (now1 now2 : String)
      (fs1 fs2 : Option String), e1.message = e2.message →
      NodupKeys o.metadata →
      (createStableError (.err e1) o now1 fs1).id =
        (createStableError (.err e2) o now2 fs2).id) := by
  refine ⟨?_, ?_, ?_⟩
  · intro m c md1 md2 h1 h2 hag
    exact generateStableId_congr m c md1 md2 h1 h2 hag
  · intro input o1 o2 now1 now2 fs1 fs2 hcat hmd
    have hcat2 : categoryOf o1 = categoryOf o2 := by
      unfold categoryOf
      rw [hcat]
    cases input with
    | msg s =>
      rw [createStableError_id_msg, createStableError_id_msg, hcat2, hmd]
    | err e =>
      rw [createStableError_id_err, createStableError_id_err, hcat2, hmd]
  · intro e1 e2 o now1 now2 fs1 fs2 hmsg hnd
    rw [createStableError_id_err, createStableError_id_err, hmsg]
    apply generateStableId_congr
    · exact NodupKeys_setKey _ _ _ (NodupKeys_setKey _ _ _ hnd)
    · exact NodupKeys_setKey _ _ _ (NodupKeys_setKey _ _ _ hnd)
    · intro k hk
      have hk1 : k ≠ "originalName" ∧ k ≠ "originalStack" := by
        fin_cases hk <;> exact ⟨by decide, by decide⟩
      rw [getVal_setKey_other _ _ _ _ hk1.2, getVal_setKey_other _ _ _ _ hk1.1,
        getVal_setKey_other _ _ _ _ hk1.2, getVal_setKey_other _ _ _ _ hk1.1]

/-- Closed witness for C1: two metadata mappings differing in non-allow-listed
keys (and in insertion order) give the same id. -/
theorem claim_C1_id_pure_witness :
    generateStableId "User not found" "Auth"
      [("type", some "validation"), ("userId", some "1")] =
    generateStableId "User not found" "Auth"
      [("stamp", some "2023-01-01"), ("type", some "validation"),
        ("userId", some "2")] :=
  claim_C1_id_pure.1 "User not found" "Auth" _ _ (by decide) (by decide)
    (by decide)

/-! ## Symbolic execution of the normalizer (claims C5, C6) -/

theorem digit_bounds (c : Char) (h : isDigitChar c = true) :
    48 ≤ c.toNat ∧ c.toNat ≤ 57 := by
  simpa [isDigitChar, Bool.and_eq_true, decide_eq_true_eq] using h

theorem digit_isHex (c : Char) (h : isDigitChar c = true) : isHexChar c = true := by
  have := digit_bounds c h
  simp only [isHexChar, Bool.or_eq_true, Bool.and_eq_true, decide_eq_true_eq]
  omega

theorem digit_notWs (c : Char) (h : isDigitChar c = true) : isWsChar c = false := by
  have hb := digit_bounds c h
  rw [Bool.eq_false_iff]
  intro hw
  simp only [isWsChar, Bool.or_eq_true, Bool.and_eq_true, decide_eq_true_eq] at hw
  omega

theorem digit_toLower (c : Char) (h : isDigitChar c = true) : toLowerChar c = c := by
  have := digit_bounds c h
  unfold toLowerChar
  rw [if_neg (by omega)]

theorem digit_ne_of (c : Char) (h : isDigitChar c = true) (d : Char)
    (hd : isDigitChar d = false) : (c = d) = False :=
  eq_false fun hh => by
    subst hh
    rw [h] at hd
    cases hd

theorem takeCount_split (p : Char → Bool) :
    ∀ (k : Nat) (l : List Char), k ≤ l.length →
      (∀ c ∈ l.take k, p c = true) → takeCount p k l = some (l.drop k) := by
  intro k
  induction k with
  | zero => intro l _ _; rfl
  | succ n ih =>
    intro l hk hp
    cases l with
    | nil => simp at hk
    | cons c rest =>
      have hc : p c = true := hp c (by simp)
      simp only [takeCount, hc, if_true]
      rw [ih rest (by simpa using hk) (fun x hx => hp x (by simp [hx]))]
      rfl

theorem takeCount_short (p : Char → Bool) :
    ∀ (k : Nat) (l : List Char), l.length < k → takeCount p k l = none := by
  intro k
  induction k with
  | zero => intro l h; simp at h
  | succ n ih =>
    intro l hk
    cases l with
    | nil => rfl
    | cons c rest =>
      simp only [takeCount]
      by_cases hc : p c
      · rw [if_pos hc]
        exact ih rest (by simpa using hk)
      · rw [if_neg hc]

/-- The UUID pattern never matches inside a pure digit run (it needs a dash
after eight hex digits, but a digit run offers only digits or the end). -/
theorem matchUuid_digits (prev : Option Char) (l : List Char)
    (h : ∀ c ∈ l, isDigitChar c = true) : matchUuid prev l = none := by
  unfold matchUuid
  by_cases hlen : 8 ≤ l.length
  · rw [takeCount_split isHexChar 8 l hlen
      (fun c hc => digit_isHex c (h c (List.take_subset 8 l hc)))]
    cases hd : l.drop 8 with
    | nil => simp [expectChar]
    | cons c rest =>
      have hc : isDigitChar c = true := h c (List.drop_subset 8 l (by rw [hd]; simp))
      simp [expectChar, digit_ne_of c hc '-' (by decide)]
  · rw [takeCount_short isHexChar 8 l (by omega)]
    rfl

/-- The ISO pattern never matches inside a pure digit run (it needs a dash
after four digits). -/
theorem matchIso_digits (prev : Option Char) (l : List Char)
    (h : ∀ c ∈ l, isDigitChar c = true) : matchIso prev l = none := by
  unfold matchIso
  by_cases hlen : 4 ≤ l.length
  · rw [takeCount_split isDigitChar 4 l hlen
      (fun c hc => h c (List.take_subset 4 l hc))]
    cases hd : l.drop 4 with
    | nil => simp [expectChar]
    | cons c rest =>
      have hc : isDigitChar c = true := h c (List.drop_subset 4 l (by rw [hd]; simp))
      simp [expectChar, digit_ne_of c hc '-' (by decide)]
  · rw [takeCount_short isDigitChar 4 l (by omega)]
    rfl

theorem scanRep_nil (M : Option Char → List Char → Option Nat) (repl : List Char)
    (fuel : Nat) (prev : Option Char) : scanRep M repl fuel prev [] = [] := by
  cases fuel <;> rfl

/-- A pass whose matcher fails on every pure digit suffix leaves a pure digit
run unchanged. -/
theorem scanRep_digits (M : Option Char → List Char → Option Nat) (repl : List Char)
    (hM : ∀ prev l, (∀ c ∈ l, isDigitChar c = true) → M prev l = none) :
    ∀ (fuel : Nat) (prev : Option Char) (l : List Char),
      (∀ c ∈ l, isDigitChar c = true) → scanRep M repl fuel prev l = l := by
  intro fuel
  induction fuel with
  | zero => intro prev l _; rfl
  | succ f ih =>
    intro prev l h
    cases l with
    | nil => rfl
    | cons c rest =>
      simp only [scanRep, hM prev (c :: rest) h]
      rw [ih (some c) rest (fun x hx => h x (List.mem_cons_of_mem _ hx))]

/-- One failing step of a pass, with the fuel in the shape produced by
`runPass`. -/
theorem scanRep_step (M : Option Char → List Char → Option Nat) (repl : List Char)
    (prev : Option Char) (c : Char) (rest : List Char)
    (h : M prev (c :: rest) = none) :
    scanRep M repl (c :: rest).length prev (c :: rest) =
      c :: scanRep M repl rest.length (some c) rest := by
  rw [List.length_cons]
  simp [scanRep, h]

/-- One matching step of a pass. -/
theorem scanRep_match_step (M : Option Char → List Char → Option Nat)
    (repl : List Char) (prev : Option Char) (c : Char) (rest : List Char)
    (k : Nat) (h : M prev (c :: rest) = some k) :
    scanRep M repl (c :: rest).length prev (c :: rest) =
      repl ++ scanRep M repl rest.length (some ((c :: rest).getD k c))
        (rest.drop k) := by
  rw [List.length_cons]
  simp [scanRep, h]

/-- The 13-digit pass replaces an exactly-13-digit run (after a non-word
position) by its placeholder. -/
theorem scanRep_ts13_fire (repl : List Char) (fuel : Nat) (prev : Option Char)
    (ds : List Char) (hf : 0 < fuel) (h13 : ds.length = 13)
    (hd : ∀ c ∈ ds, isDigitChar c = true) (hw : prevIsWord prev = false) :
    scanRep matchTs13 repl fuel prev ds = repl := by
  cases fuel with
  | zero => omega
  | succ f =>
    cases ds with
    | nil => simp at h13
    | cons c rest =>
      have htc : takeCount isDigitChar 13 (c :: rest) = some [] := by
        rw [takeCount_split isDigitChar 13 (c :: rest) (by omega)
          (fun x hx => hd x (List.take_subset _ _ hx))]
        rw [List.drop_eq_nil_of_le (by omega)]
      have hm : matchTs13 prev (c :: rest) = some 12 := by
        unfold matchTs13
        rw [if_neg (by simp [hw]), htc]
        simp [nextIsWord]
      simp only [scanRep, hm]
      rw [List.drop_eq_nil_of_le (by simp at h13 ⊢; omega), scanRep_nil]
      simp

theorem dropWhile_cons_false (p : Char → Bool) (c : Char) (l : List Char)
    (h : p c = false) : (c :: l).dropWhile p = c :: l := by
  simp [List.dropWhile_cons, h]

theorem trimChars_eq_self (l : List Char) (h1 : l.dropWhile isWsChar = l)
    (h2 : l.reverse.dropWhile isWsChar = l.reverse) : trimChars l = l := by
  unfold trimChars
  rw [h1, h2, List.reverse_reverse]

theorem map_toLower_digits (ds : List Char)
    (hd : ∀ c ∈ ds, isDigitChar c = true) : ds.map toLowerChar = ds := by
  have := List.map_congr_left (l := ds) (f := toLowerChar) (g := id)
    (fun c hc => digit_toLower c (hd c hc))
  simpa using this

/-- The 13-digit pass turns `"error at " ++ <13 digits>` into
`"error at TIMESTAMP_MS"`. -/
theorem ts13_context_pass (ds : List Char) (h13 : ds.length = 13)
    (hd : ∀ c ∈ ds, isDigitChar c = true) :
    runPass matchTs13 "TIMESTAMP_MS".data ("error at ".data ++ ds) =
      "error at TIMESTAMP_MS".data := by
  unfold runPass
  rw [show "error at ".data = ['e','r','r','o','r',' ','a','t',' '] from rfl]
  simp only [List.cons_append, List.nil_append]
  rw [scanRep_step _ _ _ _ _ (by simp +decide [matchTs13, takeCount, prevIsWord, nextIsWord])]
  rw [scanRep_step _ _ _ _ _ (by simp +decide [matchTs13, takeCount, prevIsWord, nextIsWord])]
  rw [scanRep_step _ _ _ _ _ (by simp +decide [matchTs13, takeCount, prevIsWord, nextIsWord])]
  rw [scanRep_step _ _ _ _ _ (by simp +decide [matchTs13, takeCount, prevIsWord, nextIsWord])]
  rw [scanRep_step _ _ _ _ _ (by simp +decide [matchTs13, takeCount, prevIsWord, nextIsWord])]
  rw [scanRep_step _ _ _ _ _ (by simp +decide [matchTs13, takeCount, prevIsWord, nextIsWord])]
  rw [scanRep_step _ _ _ _ _ (by simp +decide [matchTs13, takeCount, prevIsWord, nextIsWord])]
  rw [scanRep_step _ _ _ _ _ (by simp +decide [matchTs13, takeCount, prevIsWord, nextIsWord])]
  rw [scanRep_step _ _ _ _ _ (by simp +decide [matchTs13, takeCount, prevIsWord, nextIsWord])]
  rw [scanRep_ts13_fire _ _ _ _ (by omega) h13 hd (by decide)]

/-- The full normalizer on `"Error at " ++ <13 digits>`. -/
theorem normalize_errorAt_13digits (ds : List Char) (h13 : ds.length = 13)
    (hd : ∀ c ∈ ds, isDigitChar c = true) :
    normalizeMessage ⟨"Error at ".data ++ ds⟩ = "error at TIMESTAMP_MS" := by
  unfold normalizeMessage
  rw [if_neg (fun hh => by
    have := congrArg String.data hh
    simp at this)]
  simp only [normalizeChars]
  have hmap : ("Error at ".data ++ ds).map toLowerChar = "error at ".data ++ ds := by
    rw [List.map_append, map_toLower_digits ds hd]
    congr 1
  have htrim : trimChars ("error at ".data ++ ds) = "error at ".data ++ ds := by
    apply trimChars_eq_self
    · rw [show "error at ".data = ['e','r','r','o','r',' ','a','t',' '] from rfl]
      simp only [List.cons_append]
      exact dropWhile_cons_false _ _ _ (by decide)
    · rcases List.eq_nil_or_concat ds with rfl | ⟨ds2, dl, hds⟩
      · simp at h13
      · subst hds
        simp only [List.concat_eq_append]
        have hdl : isDigitChar dl = true := hd dl (by simp)
        rw [show ("error at ".data ++ (ds2 ++ [dl])).reverse =
          dl :: (ds2.reverse ++ "error at ".data.reverse) by simp]
        exact dropWhile_cons_false _ _ _ (digit_notWs dl hdl)
  have huuid : runPass matchUuid "UUID".data ("error at ".data ++ ds) =
      "error at ".data ++ ds := by
    unfold runPass
    rw [show "error at ".data = ['e','r','r','o','r',' ','a','t',' '] from rfl]
    simp only [List.cons_append, List.nil_append]
    rw [scanRep_step _ _ _ _ _ (by simp +decide [matchUuid, takeCount, expectChar])]
    rw [scanRep_step _ _ _ _ _ (by simp +decide [matchUuid, takeCount, expectChar])]
    rw [scanRep_step _ _ _ _ _ (by simp +decide [matchUuid, takeCount, expectChar])]
    rw [scanRep_step _ _ _ _ _ (by simp +decide [matchUuid, takeCount, expectChar])]
    rw [scanRep_step _ _ _ _ _ (by simp +decide [matchUuid, takeCount, expectChar])]
    rw [scanRep_step _ _ _ _ _ (by simp +decide [matchUuid, takeCount, expectChar])]
    rw [scanRep_step _ _ _ _ _ (by simp +decide [matchUuid, takeCount, expectChar])]
    rw [scanRep_step _ _ _ _ _ (by simp +decide [matchUuid, takeCount, expectChar])]
    rw [scanRep_step _ _ _ _ _ (by simp +decide [matchUuid, takeCount, expectChar])]
    rw [scanRep_digits matchUuid _ matchUuid_digits _ _ _ hd]
  have hiso : runPass matchIso "TIMESTAMP".data ("error at ".data ++ ds) =
      "error at ".data ++ ds := by
    unfold runPass
    rw [show "error at ".data = ['e','r','r','o','r',' ','a','t',' '] from rfl]
    simp only [List.cons_append, List.nil_append]
    rw [scanRep_step _ _ _ _ _ (by simp +decide [matchIso, takeCount])]
    rw [scanRep_step _ _ _ _ _ (by simp +decide [matchIso, takeCount])]
    rw [scanRep_step _ _ _ _ _ (by simp +decide [matchIso, takeCount])]
    rw [scanRep_step _ _ _ _ _ (by simp +decide [matchIso, takeCount])]
    rw [scanRep_step _ _ _ _ _ (by simp +decide [matchIso, takeCount])]
    rw [scanRep_step _ _ _ _ _ (by simp +decide [matchIso, takeCount])]
    rw [scanRep_step _ _ _ _ _ (by simp +decide [matchIso, takeCount])]
    rw [scanRep_step _ _ _ _ _ (by simp +decide [matchIso, takeCount])]
    rw [scanRep_step _ _ _ _ _ (by simp +decide [matchIso, takeCount])]
    rw [scanRep_digits matchIso _ matchIso_digits _ _ _ hd]
  rw [hmap, htrim, huuid, hiso, ts13_context_pass ds h13 hd]
  decide

/-- The full normalizer maps an ISO timestamp with any three fractional-second
digits and a trailing `Z` to the single placeholder `TIMESTAMP`. -/
theorem normalize_iso_threeFrac (f1 f2 f3 : Char) (h1 : isDigitChar f1 = true)
    (h2 : isDigitChar f2 = true) (h3 : isDigitChar f3 = true) :
    normalizeMessage ⟨"2023-01-01T10:30:00.".data ++ [f1, f2, f3] ++ ['Z']⟩ =
      "TIMESTAMP" := by
  unfold normalizeMessage
  rw [if_neg (fun hh => by
    have h0 := congrArg String.data hh
    simp at h0)]
  simp only [normalizeChars]
  have hmap : ("2023-01-01T10:30:00.".data ++ [f1, f2, f3] ++ ['Z']).map toLowerChar
      = "2023-01-01t10:30:00.".data ++ [f1, f2, f3] ++ ['z'] := by
    simp only [List.map_append]
    rw [map_toLower_digits [f1, f2, f3] (by
      intro c hc
      simp only [List.mem_cons, List.not_mem_nil, or_false] at hc
      rcases hc with rfl | rfl | rfl <;> assumption)]
    congr 1
  rw [hmap]
  have htrim : trimChars ("2023-01-01t10:30:00.".data ++ [f1, f2, f3] ++ ['z']) =
      "2023-01-01t10:30:00.".data ++ [f1, f2, f3] ++ ['z'] := by
    apply trimChars_eq_self
    · rw [show "2023-01-01t10:30:00.".data =
        '2' :: "023-01-01t10:30:00.".data from rfl]
      simp only [List.cons_append]
      exact dropWhile_cons_false _ _ _ (by decide)
    · rw [show ("2023-01-01t10:30:00.".data ++ [f1, f2, f3] ++ ['z']).reverse =
        'z' :: (f3 :: f2 :: f1 :: "2023-01-01t10:30:00.".data.reverse) from by simp]
      exact dropWhile_cons_false _ _ _ (by decide)
  rw [htrim]
  have huuid : runPass matchUuid "UUID".data
      ("2023-01-01t10:30:00.".data ++ [f1, f2, f3] ++ ['z']) =
      "2023-01-01t10:30:00.".data ++ [f1, f2, f3] ++ ['z'] := by
    unfold runPass
    rw [show "2023-01-01t10:30:00.".data =
      ['2','0','2','3','-','0','1','-','0','1','t','1','0',':','3','0',':','0','0','.'] from rfl]
    simp only [List.cons_append, List.nil_append]
    rw [scanRep_step _ _ _ _ _ (by simp +decide [matchUuid, takeCount, expectChar, digit_isHex f1 h1, digit_isHex f2 h2, digit_isHex f3 h3])]
    rw [scanRep_step _ _ _ _ _ (by simp +decide [matchUuid, takeCount, expectChar, digit_isHex f1 h1, digit_isHex f2 h2, digit_isHex f3 h3])]
    rw [scanRep_step _ _ _ _ _ (by simp +decide [matchUuid, takeCount, expectChar, digit_isHex f1 h1, digit_isHex f2 h2, digit_isHex f3 h3])]
    rw [scanRep_step _ _ _ _ _ (by simp +decide [matchUuid, takeCount, expectChar, digit_isHex f1 h1, digit_isHex f2 h2, digit_isHex f3 h3])]
    rw [scanRep_step _ _ _ _ _ (by simp +decide [matchUuid, takeCount, expectChar, digit_isHex f1 h1, digit_isHex f2 h2, digit_isHex f3 h3])]
    rw [scanRep_step _ _ _ _ _ (by simp +decide [matchUuid, takeCount, expectChar, digit_isHex f1 h1, digit_isHex f2 h2, digit_isHex f3 h3])]
    rw [scanRep_step _ _ _ _ _ (by simp +decide [matchUuid, takeCount, expectChar, digit_isHex f1 h1, digit_isHex f2 h2, digit_isHex f3 h3])]
    rw [scanRep_step _ _ _ _ _ (by simp +decide [matchUuid, takeCount, expectChar, digit_isHex f1 h1, digit_isHex f2 h2, digit_isHex f3 h3])]
    rw [scanRep_step _ _ _ _ _ (by simp +decide [matchUuid, takeCount, expectChar, digit_isHex f1 h1, digit_isHex f2 h2, digit_isHex f3 h3])]
    rw [scanRep_step _ _ _ _ _ (by simp +decide [matchUuid, takeCount, expectChar, digit_isHex f1 h1, digit_isHex f2 h2, digit_isHex f3 h3])]
    rw [scanRep_step _ _ _ _ _ (by simp +decide [matchUuid, takeCount, expectChar, digit_isHex f1 h1, digit_isHex f2 h2, digit_isHex f3 h3])]
    rw [scanRep_step _ _ _ _ _ (by simp +decide [matchUuid, takeCount, expectChar, digit_isHex f1 h1, digit_isHex f2 h2, digit_isHex f3 h3])]
    rw [scanRep_step _ _ _ _ _ (by simp +decide [matchUuid, takeCount, expectChar, digit_isHex f1 h1, digit_isHex f2 h2, digit_isHex f3 h3])]
    rw [scanRep_step _ _ _ _ _ (by simp +decide [matchUuid, takeCount, expectChar, digit_isHex f1 h1, digit_isHex f2 h2, digit_isHex f3 h3])]
    rw [scanRep_step _ _ _ _ _ (by simp +decide [matchUuid, takeCount, expectChar, digit_isHex f1 h1, digit_isHex f2 h2, digit_isHex f3 h3])]
    rw [scanRep_step _ _ _ _ _ (by simp +decide [matchUuid, takeCount, expectChar, digit_isHex f1 h1, digit_isHex f2 h2, digit_isHex f3 h3])]
    rw [scanRep_step _ _ _ _ _ (by simp +decide [matchUuid, takeCount, expectChar, digit_isHex f1 h1, digit_isHex f2 h2, digit_isHex f3 h3])]
    rw [scanRep_step _ _ _ _ _ (by simp +decide [matchUuid, takeCount, expectChar, digit_isHex f1 h1, digit_isHex f2 h2, digit_isHex f3 h3])]
    rw [scanRep_step _ _ _ _ _ (by simp +decide [matchUuid, takeCount, expectChar, digit_isHex f1 h1, digit_isHex f2 h2, digit_isHex f3 h3])]
    rw [scanRep_step _ _ _ _ _ (by simp +decide [matchUuid, takeCount, expectChar, digit_isHex f1 h1, digit_isHex f2 h2, digit_isHex f3 h3])]
    rw [scanRep_step _ _ _ _ _ (by simp +decide [matchUuid, takeCount, expectChar, digit_isHex f1 h1, digit_isHex f2 h2, digit_isHex f3 h3])]
    rw [scanRep_step _ _ _ _ _ (by simp +decide [matchUuid, takeCount, expectChar, digit_isHex f1 h1, digit_isHex f2 h2, digit_isHex f3 h3])]
    rw [scanRep_step _ _ _ _ _ (by simp +decide [matchUuid, takeCount, expectChar, digit_isHex f1 h1, digit_isHex f2 h2, digit_isHex f3 h3])]
    rw [scanRep_step _ _ _ _ _ (by simp +decide [matchUuid, takeCount, expectChar, digit_isHex f1 h1, digit_isHex f2 h2, digit_isHex f3 h3])]
    rw [scanRep_nil]
  rw [huuid]
  have hiso : runPass matchIso "TIMESTAMP".data
      ("2023-01-01t10:30:00.".data ++ [f1, f2, f3] ++ ['z']) =
      "TIMESTAMP".data := by
    unfold runPass
    rw [show "2023-01-01t10:30:00.".data =
      ['2','0','2','3','-','0','1','-','0','1','t','1','0',':','3','0',':','0','0','.'] from rfl]
    simp only [List.cons_append, List.nil_append]
    rw [scanRep_match_step _ _ _ _ _ 23
      (by simp +decide [matchIso, takeCount, expectChar, expectPred, tryOpt, h1, h2, h3])]
    rw [List.drop_eq_nil_of_le (by simp)]
    rw [scanRep_nil]
    simp
  rw [hiso]
  decide

/-- The full normalizer on a bare 13-digit message. -/
theorem normalize_bare_13digits (ds : List Char) (h13 : ds.length = 13)
    (hd : ∀ c ∈ ds, isDigitChar c = true) :
    normalizeMessage ⟨ds⟩ = "TIMESTAMP_MS" := by
  unfold normalizeMessage
  rw [if_neg (fun hh => by
    have h0 := congrArg String.data hh
    simp only [] at h0
    rw [h0] at h13
    simp at h13)]
  simp only [normalizeChars]
  rw [map_toLower_digits ds hd]
  have htrim : trimChars ds = ds := by
    apply trimChars_eq_self
    · cases ds with
      | nil => rfl
      | cons c rest =>
        exact dropWhile_cons_false _ _ _ (digit_notWs c (hd c (by simp)))
    · rcases List.eq_nil_or_concat ds with rfl | ⟨ds2, dl, hds⟩
      · rfl
      · subst hds
        simp only [List.concat_eq_append]
        have hdl : isDigitChar dl = true := hd dl (by simp)
        rw [show (ds2 ++ [dl]).reverse = dl :: ds2.reverse from by simp]
        exact dropWhile_cons_false _ _ _ (digit_notWs dl hdl)
  rw [htrim]
  rw [show runPass matchUuid "UUID".data ds = ds from
    scanRep_digits matchUuid _ matchUuid_digits _ _ _ hd]
  rw [show runPass matchIso "TIMESTAMP".data ds = ds from
    scanRep_digits matchIso _ matchIso_digits _ _ _ hd]
  rw [show runPass matchTs13 "TIMESTAMP_MS".data ds = "TIMESTAMP_MS".data from
    scanRep_ts13_fire _ _ _ _ (by omega) h13 hd (by decide)]
  decide

/-- Claim C5: Every standalone word-bounded 13-digit integer is replaced with the
placeholder `TIMESTAMP_MS` — for an arbitrary 13-digit run, both in the message
`"Error at <digits>"` and as the entire message — and the 13-digit pass runs
before the generic number pass in the normalizer's pipeline, so a 13-digit
number normalizes to `TIMESTAMP_MS` and never to `NUMBER`; in particular
`normalize("Error at 1672531200000") = "error at TIMESTAMP_MS"`. -/
theorem claim_C5_ts13_precedence :
    (∀ ds : List Char, ds.length = 13 → (∀ c ∈ ds, isDigitChar c = true) →
      normalizeMessage ⟨"Error at ".data ++ ds⟩ = "error at TIMESTAMP_MS" ∧
      normalizeMessage ⟨ds⟩ = "TIMESTAMP_MS") ∧
    (∀ l : List Char, normalizeChars l =
      runPass matchWs " ".data (runPass matchNum "NUMBER".data
        (runPass matchTs13 "TIMESTAMP_MS".data (runPass matchIso "TIMESTAMP".data
          (runPass matchUuid "UUID".data (trimChars (l.map toLowerChar))))))) ∧
    normalizeMessage "Error at 1672531200000" = "error at TIMESTAMP_MS" :=
  ⟨fun ds h13 hd =>
    ⟨normalize_errorAt_13digits ds h13 hd, normalize_bare_13digits ds h13 hd⟩,
   fun _ => rfl, by decide⟩

/-- Closed witness for C5 at the spec's example epoch value. -/
theorem claim_C5_ts13_precedence_witness :
    ((['1','6','7','2','5','3','1','2','0','0','0','0','0'] : List Char).length = 13 ∧
      (∀ c ∈ (['1','6','7','2','5','3','1','2','0','0','0','0','0'] : List Char),
        isDigitChar c = true)) ∧
    normalizeMessage
      ⟨"Error at ".data ++ ['1','6','7','2','5','3','1','2','0','0','0','0','0']⟩ =
      "error at TIMESTAMP_MS" :=
  ⟨⟨by decide, by decide⟩,
   (claim_C5_ts13_precedence.1 ['1','6','7','2','5','3','1','2','0','0','0','0','0']
      (by decide) (by decide)).1⟩

/-- Claim C6, counterexample: An ISO-8601-like timestamp with two fractional
digits is not replaced by the single placeholder `TIMESTAMP`: the fractional
group of the pattern requires exactly three digits, so `".12Z"` is left behind
(lowercased). -/
theorem claim_C6_counterexample :
    normalizeMessage "2023-01-01T00:00:00.12Z" ≠ "TIMESTAMP" ∧
    normalizeMessage "2023-01-01T00:00:00.12Z" = "TIMESTAMP.12z" := by
  constructor
  · decide
  · decide

/-- Claim C6, amended: The normalizer replaces an ISO-8601-like timestamp of
shape `YYYY-MM-DDThh:mm:ss`, optionally carrying exactly three
fractional-second digits and an optional trailing `Z`, with the single
placeholder `TIMESTAMP`: universally over the three fractional digits, and at
the no-fraction, fraction-without-`Z` and in-context variants. -/
theorem claim_C6_iso_timestamp :
    (∀ f1 f2 f3 : Char, isDigitChar f1 = true → isDigitChar f2 = true →
      isDigitChar f3 = true →
      normalizeMessage ⟨"2023-01-01T10:30:00.".data ++ [f1, f2, f3] ++ ['Z']⟩ =
        "TIMESTAMP") ∧
    normalizeMessage "2023-01-01T10:30:00" = "TIMESTAMP" ∧
    normalizeMessage "2023-01-01T10:30:00.500" = "TIMESTAMP" ∧
    normalizeMessage "At 2023-01-01T10:30:00.123Z ok" = "at TIMESTAMP ok" :=
  ⟨fun f1 f2 f3 h1 h2 h3 => normalize_iso_threeFrac f1 f2 f3 h1 h2 h3,
   by decide, by decide, by decide⟩

/-- Closed witness for C6 at the fractional digits `123`. -/
theorem claim_C6_iso_timestamp_witness :
    (isDigitChar '1' = true ∧ isDigitChar '2' = true ∧ isDigitChar '3' = true) ∧
    normalizeMessage ⟨"2023-01-01T10:30:00.".data ++ ['1', '2', '3'] ++ ['Z']⟩ =
      "TIMESTAMP" :=
  ⟨⟨by decide, by decide, by decide⟩,
   claim_C6_iso_timestamp.1 '1' '2' '3' (by decide) (by decide) (by decide)⟩

/-- Closed witness for C3 at a concrete input. -/
theorem claim_C3_id_shape_witness :
    (generateStableId "User not found" "auth" []).length = 8 :=
  (claim_C3_id_shape "User not found" "auth" []).1
